import Mathlib

/-!
# Verification of the trackpy feature-finding pipeline (`trackpy/feature.py`)

This file gives a shallow embedding, in Lean 4, of the single-image
feature-finding pipeline of `trackpy/feature.py`: percentile thresholding,
grey dilation and local-maximum detection, the per-candidate centroid
refinement loop (both the pure-Python engine `_refine` and the numba engine
`_numba_refine`), duplicate suppression, top-N selection, and the
orchestrating `locate` control flow.

Modelling conventions:
* machine floats are embedded as exact rationals `ℚ`; IEEE NaN (which in the
  source arises only from division by zero, e.g. `0.0/0.0`) is embedded as
  `none : Option ℚ`, with comparisons against NaN evaluating to `false`
  exactly as in IEEE arithmetic;
* an N-dimensional numpy array is a total function `List ℤ → ℚ` together
  with its `shape`; all pipeline reads are in bounds (detection enforces a
  margin of at least `radius`), and boundary-condition reads
  (`mode='constant', cval=0`) are made explicit in `imgRead`;
* numpy scan order (row-major `np.where`, `np.nonzero`) is the lexicographic
  enumeration `allCoords`;
* `np.argsort` (default quicksort) runs plain insertion sort — a stable
  ascending sort, embedded as `insertionSortBy` — for arrays of at most 16
  elements (numpy's introsort threshold); for larger arrays the introsort
  partition may permute equal keys, so the order of ties is
  implementation-defined. Accordingly, properties of the top-N selection
  that do not depend on the tie order are proved for EVERY ascending-mass
  permutation (`selectTopnWith` takes the sort as a parameter), and the
  tie-order statement is confined to the ≤ 16-element insertion-sort
  regime, where `sortByMass` is exact.
-/

set_option maxHeartbeats 1000000
set_option maxRecDepth 100000

namespace Trackpy

/-- Stable insertion sort by a strict comparison `lt`, used to embed
`np.sort` / `np.argsort` (numpy runs stable insertion sort on the short
arrays that occur in this pipeline). `insertAsc` places `a` before the
first element `b` with `¬ lt b a`, so equal elements keep their input
order. -/
def insertAsc (lt : α → α → Bool) (a : α) : List α → List α
  | [] => [a]
  | b :: bs => if lt b a then b :: insertAsc lt a bs else a :: b :: bs

/-- Stable ascending sort built from `insertAsc`. -/
def insertionSortBy (lt : α → α → Bool) : List α → List α
  | [] => []
  | a :: as => insertAsc lt a (insertionSortBy lt as)

/-- All integer coordinates of an axis-aligned box of the given per-axis
sizes, in numpy row-major (lexicographic) scan order. -/
def allCoords : List ℕ → List (List ℕ)
  | [] => [[]]
  | s :: rest => (List.range s).flatMap (fun i => (allCoords rest).map (fun c => i :: c))

/-- Index coordinates of the mask box of radius `r` (per-axis sizes
`2*rₖ+1`), i.e. the index set of `binary_mask(radius, ndim)`. -/
def boxIndices (r : List ℕ) : List (List ℕ) :=
  allCoords (r.map (fun x => 2 * x + 1))

/-- Maximum of a list of rationals (`ndarray.max()` on a nonempty array);
`0` on the empty list, which never occurs in the pipeline. -/
def listMax : List ℚ → ℚ
  | [] => 0
  | x :: xs => xs.foldl max x

/-- An N-dimensional numpy array: shape, pixel values as a total function
on integer coordinates, and whether its dtype is an integer type. -/
structure NDImage where
  shape : List ℕ
  pix : List ℤ → ℚ
  intDtype : Bool

/-- Whether a coordinate lies inside the array bounds. -/
def inBounds (shape : List ℕ) (c : List ℤ) : Bool :=
  c.length == shape.length &&
    (List.zip c shape).all (fun p => 0 ≤ p.1 && p.1 < (p.2 : ℤ))

/-- Read with the `mode='constant', cval=0` boundary condition used by
`scipy.ndimage.grey_dilation`. -/
def imgRead (img : NDImage) (c : List ℤ) : ℚ :=
  if inBounds img.shape c then img.pix c else 0

/-- Read at a nonnegative (in-grid) coordinate. -/
def pixN (img : NDImage) (x : List ℕ) : ℚ :=
  img.pix (x.map Int.ofNat)

/-- Modelled from the spec: `binary_mask(radius, ndim)` from `masks.py`
(not under `src/`): `M(i) = 1` iff `Σ((iₖ − rₖ)/rₖ)² ≤ 1`, else `0`. -/
def binary_mask (r : List ℕ) (i : List ℕ) : ℚ :=
  if (List.zipWith (fun (ik rk : ℕ) => (((ik : ℚ) - rk) / rk) ^ 2) i r).sum ≤ 1
  then 1 else 0

/-- Modelled from the spec: `r_squared_mask(radius, ndim)` from `masks.py`
(not under `src/`): `R²(i) = Σ(iₖ − rₖ)²` restricted to `M`. -/
def r_squared_mask (r : List ℕ) (i : List ℕ) : ℚ :=
  binary_mask r i * (List.zipWith (fun (ik rk : ℕ) => ((ik : ℚ) - rk) ^ 2) i r).sum

/-- Modelled from the spec: `cosmask(radius)` from `masks.py` (not under
`src/`), 2D only: `C(i) = cos(2·atan2(i₁−r₁, i₀−r₀))` restricted to `M`,
with `C[r] = 0` by construction. `cos(2·atan2(y, x)) = (x²−y²)/(x²+y²)`
is exactly rational. -/
def cosmask (r : ℕ) (i : List ℕ) : ℚ :=
  let x : ℚ := (i.getD 0 0 : ℚ) - r
  let y : ℚ := (i.getD 1 0 : ℚ) - r
  if x = 0 ∧ y = 0 then 0
  else binary_mask [r, r] i * ((x ^ 2 - y ^ 2) / (x ^ 2 + y ^ 2))

/-- Modelled from the spec: `sinmask(radius)` from `masks.py` (not under
`src/`), 2D only: `S(i) = sin(2·atan2(i₁−r₁, i₀−r₀))` restricted to `M`,
with `S[r] = 0` by construction; `sin(2·atan2(y, x)) = 2xy/(x²+y²)`. -/
def sinmask (r : ℕ) (i : List ℕ) : ℚ :=
  let x : ℚ := (i.getD 0 0 : ℚ) - r
  let y : ℚ := (i.getD 1 0 : ℚ) - r
  if x = 0 ∧ y = 0 then 0
  else binary_mask [r, r] i * (2 * x * y / (x ^ 2 + y ^ 2))

/-- The nonzero pixel values of an image in scan order:
`image[np.nonzero(image)]`. -/
def nonzeroValues (img : NDImage) : List ℚ :=
  ((allCoords img.shape).map (pixN img)).filter (fun v => v ≠ 0)

/-- `np.percentile(xs, p)` with the default linear interpolation, embedded
with exact rational arithmetic over the ascending sort of `xs`. -/
def npPercentile (xs : List ℚ) (p : ℚ) : ℚ :=
  let s := insertionSortBy (fun a b => decide (a < b)) xs
  let n := s.length
  let pos : ℚ := p / 100 * ((n : ℚ) - 1)
  let lo : ℤ := ⌊pos⌋
  let frac : ℚ := pos - (lo : ℚ)
  let a := s.getD lo.toNat 0
  let b := s.getD (lo.toNat + 1) a
  a + frac * (b - a)

/-- `percentile_threshold(image, percentile)` (`feature.py` lines 21–27):
`none` embeds the `np.nan` returned for an entirely zero image. -/
def percentile_threshold (img : NDImage) (percentile : ℚ) : Option ℚ :=
  let notBlack := nonzeroValues img
  if notBlack.isEmpty then none else some (npPercentile notBlack percentile)

/-- Elementwise coordinate `x + f − r` used to place the structuring
element: entry `k` is `xₖ + fₖ − rₖ`. -/
def offsetCoord (x : List ℕ) (f : List ℕ) (r : List ℕ) : List ℤ :=
  List.zipWith (fun (xf : ℕ × ℕ) (rk : ℕ) => (xf.1 : ℤ) + xf.2 - rk) (List.zip x f) r

/-- `scipy.ndimage.grey_dilation(image, footprint=binary_mask(r, d),
mode='constant')` at an in-grid point: the maximum of the image over the
(symmetric) footprint, reading `0` outside the array. -/
def grey_dilation (img : NDImage) (r : List ℕ) (x : List ℕ) : ℚ :=
  listMax (((boxIndices r).filter (fun f => binary_mask r f ≠ 0)).map
    (fun f => imgRead img (offsetCoord x f r)))

/-- The per-axis edge test of `local_maxima` (`feature.py` line 63):
`(maxima < margin) | (maxima > shape - margin - 1)` any-reduced over axes. -/
def nearEdge (shape : List ℕ) (margin : List ℤ) (x : List ℕ) : Bool :=
  (List.range shape.length).any (fun k =>
    ((x.getD k 0 : ℤ) < margin.getD k 0) ||
      ((shape.getD k 0 : ℤ) - margin.getD k 0 - 1 < (x.getD k 0 : ℤ)))

/-- `local_maxima(image, radius, percentile, margin)` (`feature.py` lines
30–70). Returns `Except` for the `TypeError` raised on non-integer dtype,
and otherwise the emitted warnings together with the returned coordinate
list. Note the order of operations in the source: the percentile threshold
(and the black-image early return) comes before the dtype check. -/
def local_maxima (img : NDImage) (r : List ℕ) (percentile : ℚ)
    (margin : List ℤ) : Except String (List String × List (List ℕ)) :=
  match percentile_threshold img percentile with
  | none => .ok (["Image is completely black."], [])
  | some T =>
    if img.intDtype = false then
      .error "Perform dilation on exact (i.e., integer) data."
    else
      let maxima := (allCoords img.shape).filter
        (fun x => pixN img x == grey_dilation img r x && decide (T < pixN img x))
      if maxima.isEmpty then .ok (["Image contains no local maxima."], [])
      else
        let kept := maxima.filter (fun x => ¬ nearEdge img.shape margin x)
        let warns :=
          if kept.isEmpty then ["All local maxima were in the margins."] else []
        .ok (warns, kept)

/-! ## The python refinement engine `_refine` (`feature.py` lines 204–294) -/

/-- `SHIFT_THRESH = 0.6`. -/
def SHIFT_THRESH : ℚ := 3 / 5

/-- `GOOD_ENOUGH_THRESH = 0.005` (python engine). -/
def GOOD_ENOUGH_PY : ℚ := 1 / 200

/-- `GOOD_ENOUGH_THRESH = 0.01` (numba engine). -/
def GOOD_ENOUGH_NUMBA : ℚ := 1 / 100

/-- Division embedding numpy float division: `none` stands for the
non-finite result (NaN/inf) of dividing by zero. -/
def safeDiv (a b : ℚ) : Option ℚ := if b = 0 then none else some (a / b)

/-- Entry `k` is `anchorₖ + iₖ − rₖ` (image coordinate of box index `i`). -/
def offsetCoord' (anchor : List ℤ) (i : List ℕ) (r : List ℕ) : List ℤ :=
  List.zipWith (fun (af : ℤ × ℕ) (rk : ℕ) => af.1 + af.2 - rk) (List.zip anchor i) r

/-- The masked neighborhood `mask * image[rect]` flattened in scan order,
for the rect anchored at integer coordinate `c` (`rect = slice(c − rad,
c + rad + 1)` per axis). All pipeline reads are in bounds. -/
def maskedNB (img : NDImage) (r : List ℕ) (anchor : List ℤ) : List ℚ :=
  (boxIndices r).map (fun i => binary_mask r i * img.pix (offsetCoord' anchor i r))

/-- `Σ (N · grid[dim])`: the moment of the flattened neighborhood along one
axis (`(x * grids[dim]).sum()` in `_safe_center_of_mass`). -/
def nbMoment (r : List ℕ) (vals : List ℚ) (dim : ℕ) : ℚ :=
  ((List.zip vals (boxIndices r)).map (fun p => p.1 * (p.2.getD dim 0 : ℚ))).sum

/-- `_safe_center_of_mass(x, radius, grids)` (`feature.py` lines 89–94):
the masked centroid, defaulting to the mask center `radius` when the
neighborhood sums to zero. -/
def safe_center_of_mass (r : List ℕ) (vals : List ℚ) : List ℚ :=
  let normalizer := vals.sum
  if normalizer = 0 then r.map (fun rk : ℕ => (rk : ℚ))
  else (List.range r.length).map (fun dim => nbMoment r vals dim / normalizer)

/-- `cm_i = cm_n − radius + new_coord` in image coordinates. -/
def cmImage (r : List ℕ) (cm : List ℚ) (nc : List ℚ) : List ℚ :=
  List.zipWith (fun (cr : ℚ × ℕ) (n : ℚ) => cr.1 - cr.2 + n) (List.zip cm r) nc

/-- Per-candidate loop state of `_refine`: the float coordinate `coord`,
the integer anchor of the current `rect`, the flattened neighborhood, the
neighborhood and image centroids, and the `allow_moves` flag. -/
structure PState where
  coord : List ℚ
  anchor : List ℤ
  nb : List ℚ
  cm_n : List ℚ
  cm_i : List ℚ
  allowMoves : Bool

/-- `off_center = cm_n − radius`. -/
def offCenter (r : List ℕ) (s : PState) : List ℚ :=
  List.zipWith (fun c (rk : ℕ) => c - rk) s.cm_n r

/-- Which branch of the `_refine` loop body fires: the convergence break,
the whole-pixel move (`np.any(np.abs(off_center) > SHIFT_THRESH) &
allow_moves`), or the interpolation branch. -/
inductive StepKind where
  | convergedK : StepKind
  | moveK : StepKind
  | interpK : StepKind
deriving DecidableEq

/-- Branch selector of one `_refine` loop iteration
(`feature.py` lines 237–261). -/
def pythonStepKind (r : List ℕ) (s : PState) : StepKind :=
  let off := offCenter r s
  if off.all (fun q => |q| < GOOD_ENOUGH_PY) then .convergedK
  else if off.any (fun q => SHIFT_THRESH < |q|) && s.allowMoves then .moveK
  else .interpK

/-- The moved integer coordinate: `new_coord[off > S] += 1`,
`new_coord[off < −S] −= 1`, then `np.clip(new_coord, radius,
shape − 1 − radius).astype(int)`; the clamp applies the lower bound first,
then the upper bound, and the values are nonnegative integers so
`astype(int)` is the floor. -/
def moveTarget (shape : List ℕ) (r : List ℕ) (coord : List ℚ)
    (off : List ℚ) : List ℤ :=
  (List.range r.length).map (fun k =>
    let c := coord.getD k 0
    let o := off.getD k 0
    let c1 := if SHIFT_THRESH < o then c + 1
      else if o < -SHIFT_THRESH then c - 1 else c
    let lo : ℚ := (r.getD k 0 : ℚ)
    let hi : ℚ := ((shape.getD k 0 : ℕ) : ℚ) - 1 - (r.getD k 0 : ℚ)
    let c2 := if c1 < lo then lo else c1
    ⌊if hi < c2 then hi else c2⌋)

/-- One iteration of the `_refine` per-candidate loop (`feature.py` lines
233–265). `shift` is the order-2 spline interpolation
`ndimage.shift(neighborhood, −off_center, order=2, mode='constant',
cval=0)`, taken as a parameter: its numerical content is irrelevant to the
claims proved here, which hold for every interpolation kernel. -/
def pythonStep (shift : List ℚ → List ℚ → List ℚ) (img : NDImage)
    (r : List ℕ) (s : PState) : PState :=
  match pythonStepKind r s with
  | .convergedK => s
  | .moveK =>
    let nc := moveTarget img.shape r s.coord (offCenter r s)
    let ncQ := nc.map (fun z : ℤ => (z : ℚ))
    let nb2 := maskedNB img r nc
    let cm := safe_center_of_mass r nb2
    { coord := ncQ, anchor := nc, nb := nb2, cm_n := cm,
      cm_i := cmImage r cm ncQ, allowMoves := s.allowMoves }
  | .interpK =>
    let off := offCenter r s
    let nb2 := shift s.nb (off.map (fun q => -q))
    let nc := List.zipWith (fun a b => a + b) s.coord off
    let cm := safe_center_of_mass r nb2
    { coord := nc, anchor := s.anchor, nb := nb2, cm_n := cm,
      cm_i := cmImage r cm nc, allowMoves := false }

/-- `for iteration in range(max_iterations)` with the convergence break at
the top of each iteration. -/
def pythonLoop (shift : List ℚ → List ℚ → List ℚ) (img : NDImage)
    (r : List ℕ) : ℕ → PState → PState
  | 0, s => s
  | n + 1, s =>
    match pythonStepKind r s with
    | .convergedK => s
    | _ => pythonLoop shift img r n (pythonStep shift img r s)

/-- Initial per-candidate state of `_refine` (lines 225–232). -/
def pInit (img : NDImage) (r : List ℕ) (x0 : List ℤ) : PState :=
  let nb := maskedNB img r x0
  let cm := safe_center_of_mass r nb
  let x0Q := x0.map (fun z : ℤ => (z : ℚ))
  { coord := x0Q, anchor := x0, nb := nb, cm_n := cm,
    cm_i := cmImage r cm x0Q, allowMoves := true }

/-- Characterization record (present iff `characterize`); `sizeSq` holds
the radicand of `size = √(Σ(R²·N)/mass)` and `eccSq` the square of the
eccentricity (`√` is not rational-valued; both transforms are monotone and
no claim inspects these values); `none` embeds a non-finite float. -/
structure PChar where
  sizeSq : Option ℚ
  eccSq : Option ℚ
  signal : ℚ
deriving DecidableEq

/-- One refined feature as produced by `_refine`: reported position
(reversed to x, y[, z] order), mass, optional characterization. -/
structure PResult where
  pos : List ℚ
  mass : ℚ
  char : Option PChar
deriving DecidableEq

/-- The neighborhood value at the central pixel `neighborhood[rad, rad]`
(2D; the flattened index of box index `(rad, rad)` is
`rad·(2·rad+1) + rad`). -/
def nbCenter2 (rad : ℕ) (nb : List ℚ) : ℚ :=
  nb.getD (rad * (2 * rad + 1) + rad) 0

/-- The per-candidate body of `_refine` (`feature.py` lines 224–288):
run the loop from the integer candidate `x0`, then report position, mass
and (if `characterize`) size, eccentricity and signal, where `signal =
(mask * raw_image[rect]).max()` at the final anchor. -/
def refineOnePython (shift : List ℚ → List ℚ → List ℚ) (img : NDImage)
    (raw : List ℤ → ℚ) (r : List ℕ) (maxIter : ℕ) (characterize : Bool)
    (x0 : List ℤ) : PResult :=
  let sF := pythonLoop shift img r maxIter (pInit img r x0)
  let mass := sF.nb.sum
  let char :=
    if characterize then
      let sizeSq := safeDiv (((List.zip (boxIndices r) sF.nb).map
        (fun p => r_squared_mask r p.1 * p.2)).sum) mass
      let eccSq :=
        if r.length = 2 ∧ r.getD 0 0 = r.getD 1 0 then
          let rad := r.getD 0 0
          let a := ((List.zip (boxIndices r) sF.nb).map
            (fun p => p.2 * cosmask rad p.1)).sum
          let b := ((List.zip (boxIndices r) sF.nb).map
            (fun p => p.2 * sinmask rad p.1)).sum
          let den := mass - nbCenter2 rad sF.nb + 1 / 1000000
          safeDiv (a ^ 2 + b ^ 2) (den ^ 2)
        else none
      let signal := listMax ((boxIndices r).map
        (fun i => binary_mask r i * raw (offsetCoord' sF.anchor i r)))
      some ⟨sizeSq, eccSq, signal⟩
    else none
  { pos := sF.cm_i.reverse, mass := mass, char := char }

/-! ## The numba engine `_numba_refine` (`feature.py` lines 297–426),
2D with isotropic radius. NaN (from `cm_n[dim] /= mass_` with zero mass)
is `none`; every comparison against NaN is `false`, as in IEEE. -/

/-- `|q| > t` with the IEEE NaN convention: `false` on NaN. -/
def ogtAbs : Option ℚ → ℚ → Bool
  | none, _ => false
  | some q, t => t < |q|

/-- NaN-propagating subtraction of a constant. -/
def osub (a : Option ℚ) (b : ℚ) : Option ℚ := a.map (fun q => q - b)

/-- NaN-propagating addition of a constant. -/
def oadd (a : Option ℚ) (b : ℚ) : Option ℚ := a.map (fun q => q + b)

/-- Python 3 `round` (round half to even), applied by the numba engine via
`int(round(coord[dim]))`; in the pipeline `coord` is always integral. -/
def pyRound (q : ℚ) : ℤ :=
  let f := ⌊q⌋
  let frac := q - f
  if frac < 1 / 2 then f
  else if 1 / 2 < frac then f + 1
  else if f % 2 = 0 then f else f + 1

/-- 2D binary mask at radius `r`. -/
def mask2 (r : ℕ) (i j : ℕ) : ℚ := binary_mask [r, r] [i, j]

/-- Scan-order index pairs of the `(2r+1)×(2r+1)` square. -/
def squareScan (r : ℕ) : List (ℕ × ℕ) :=
  (List.range (2 * r + 1)).flatMap
    (fun i => (List.range (2 * r + 1)).map (fun j => (i, j)))

/-- `mass_`: sum of masked pixels over the square anchored at `sq`. -/
def sqMass (img2 : ℤ → ℤ → ℚ) (r : ℕ) (sq : ℤ × ℤ) : ℚ :=
  ((squareScan r).map (fun p =>
    if mask2 r p.1 p.2 ≠ 0 then img2 (sq.1 + p.1) (sq.2 + p.2) else 0)).sum

/-- `cm_n[0]` accumulator: `Σ px·i` over the masked square. -/
def sqMoment0 (img2 : ℤ → ℤ → ℚ) (r : ℕ) (sq : ℤ × ℤ) : ℚ :=
  ((squareScan r).map (fun p =>
    if mask2 r p.1 p.2 ≠ 0 then img2 (sq.1 + p.1) (sq.2 + p.2) * p.1 else 0)).sum

/-- `cm_n[1]` accumulator: `Σ px·j` over the masked square. -/
def sqMoment1 (img2 : ℤ → ℤ → ℚ) (r : ℕ) (sq : ℤ × ℤ) : ℚ :=
  ((squareScan r).map (fun p =>
    if mask2 r p.1 p.2 ≠ 0 then img2 (sq.1 + p.1) (sq.2 + p.2) * p.2 else 0)).sum

/-- Loop state of `_numba_refine` for one candidate. -/
structure NState where
  coord : ℚ × ℚ
  sq : ℤ × ℤ
  cm : Option ℚ × Option ℚ
  cmi : Option ℚ × Option ℚ

/-- Initial numba state (lines 313–329): anchor the square at
`int(round(coord)) − radius` and compute the first centroid, dividing by
`mass_` with no zero guard (`cm_n[dim] /= mass_`). -/
def nInit (img2 : ℤ → ℤ → ℚ) (r : ℕ) (c : ℚ × ℚ) : NState :=
  let sq : ℤ × ℤ := (pyRound c.1 - r, pyRound c.2 - r)
  let m := sqMass img2 r sq
  let cm := (safeDiv (sqMoment0 img2 r sq) m, safeDiv (sqMoment1 img2 r sq) m)
  { coord := c, sq := sq, cm := cm,
    cmi := (oadd (osub cm.1 r) c.1, oadd (osub cm.2 r) c.2) }

/-- Walk direction per axis: `+1` if `off > SHIFT_THRESH`, `−1` if
`off < −SHIFT_THRESH`, else `0`; NaN moves neither way. -/
def dirOf : Option ℚ → ℤ
  | none => 0
  | some q => if SHIFT_THRESH < q then 1 else if q < -SHIFT_THRESH then -1 else 0

/-- The sequential clamp of lines 357–362: lower bound first, then upper. -/
def clampSeq (v lo hi : ℤ) : ℤ :=
  let v1 := if v < lo then lo else v
  if hi < v1 then hi else v1

/-- The iteration loop of `_numba_refine` (lines 331–394). The
convergence test breaks when no axis has `|off_center| > 0.01` (false for
NaN); the interpolation branch is unimplemented in the numba engine and
simply breaks, so `allow_moves` is never cleared and is omitted from the
state. -/
def numbaLoop (img2 : ℤ → ℤ → ℚ) (r : ℕ) (shape0 shape1 : ℤ) :
    ℕ → NState → NState
  | 0, s => s
  | n + 1, s =>
    let off := (osub s.cm.1 r, osub s.cm.2 r)
    if ¬(ogtAbs off.1 GOOD_ENOUGH_NUMBA ∨ ogtAbs off.2 GOOD_ENOUGH_NUMBA) then s
    else if ¬(ogtAbs off.1 SHIFT_THRESH ∨ ogtAbs off.2 SHIFT_THRESH) then s
    else
      let nc1 := clampSeq (pyRound s.coord.1 + dirOf off.1) r (shape0 - r - 1)
      let nc2 := clampSeq (pyRound s.coord.2 + dirOf off.2) r (shape1 - r - 1)
      let sq : ℤ × ℤ := (nc1 - r, nc2 - r)
      let m := sqMass img2 r sq
      let cm := (safeDiv (sqMoment0 img2 r sq) m,
        safeDiv (sqMoment1 img2 r sq) m)
      numbaLoop img2 r shape0 shape1 n
        { coord := ((nc1 : ℚ), (nc2 : ℚ)), sq := sq, cm := cm,
          cmi := (oadd (osub cm.1 r) (nc1 : ℚ), oadd (osub cm.2 r) (nc2 : ℚ)) }

/-- The `signal_` accumulation of lines 404–418: scanning the masked
square, whenever the RAW pixel exceeds the running value, store the
PROCESSED pixel `px` (the source stores `px`, not `raw_px`). -/
def numbaSignalFold (img2 raw2 : ℤ → ℤ → ℚ) (r : ℕ) (sq : ℤ × ℤ) : ℚ :=
  (squareScan r).foldl (fun acc p =>
    if mask2 r p.1 p.2 ≠ 0 then
      if acc < raw2 (sq.1 + p.1) (sq.2 + p.2)
      then img2 (sq.1 + p.1) (sq.2 + p.2) else acc
    else acc) 0

/-- One refined feature as produced by `_numba_refine`: position is
`(cm_i[1], cm_i[0])` (possibly NaN), mass is recomputed over the final
square, characterization as in `PChar`. -/
structure NResult where
  pos : Option ℚ × Option ℚ
  mass : ℚ
  char : Option PChar
deriving DecidableEq

/-- The per-candidate body of `_numba_refine` (lines 311–424). -/
def numbaRefineOne (img2 raw2 : ℤ → ℤ → ℚ) (r : ℕ) (shape0 shape1 : ℤ)
    (maxIter : ℕ) (characterize : Bool) (c : ℚ × ℚ) : NResult :=
  let sF := numbaLoop img2 r shape0 shape1 maxIter (nInit img2 r c)
  let m := sqMass img2 r sF.sq
  let char :=
    if characterize then
      let rgNum := ((squareScan r).map (fun p =>
        if mask2 r p.1 p.2 ≠ 0 then
          r_squared_mask [r, r] [p.1, p.2] * img2 (sF.sq.1 + p.1) (sF.sq.2 + p.2)
        else 0)).sum
      let e1 := ((squareScan r).map (fun p =>
        if mask2 r p.1 p.2 ≠ 0 then
          cosmask r [p.1, p.2] * img2 (sF.sq.1 + p.1) (sF.sq.2 + p.2)
        else 0)).sum
      let e2 := ((squareScan r).map (fun p =>
        if mask2 r p.1 p.2 ≠ 0 then
          sinmask r [p.1, p.2] * img2 (sF.sq.1 + p.1) (sF.sq.2 + p.2)
        else 0)).sum
      let centerPx := img2 (sF.sq.1 + r) (sF.sq.2 + r)
      let den := m - centerPx + 1 / 1000000
      some ⟨safeDiv rgNum m, safeDiv (e1 ^ 2 + e2 ^ 2) (den ^ 2),
        numbaSignalFold img2 raw2 r sF.sq⟩
    else none
  { pos := (sF.cmi.2, sF.cmi.1), mass := m, char := char }

/-! ## Duplicate suppression (`refine`, `feature.py` lines 176–198) -/

/-- The default `PResult` used for (never-occurring) out-of-range index
reads. -/
def defaultRow : PResult := { pos := [], mass := 0, char := none }

/-- Scaled position of one feature: `results[:, :mass_index] /
list(reversed(separation))` (the result columns are in reversed axis
order, so `separation` is reversed to match). -/
def scaledPos (sep : List ℚ) (row : PResult) : List ℚ :=
  List.zipWith (fun p s => p / s) row.pos sep.reverse

/-- Squared Euclidean distance between two rational vectors. -/
def dist2 (p q : List ℚ) : ℚ :=
  ((List.zipWith (fun a b => a - b) p q).map (fun x => x ^ 2)).sum

/-- `cKDTree(positions, 30).query_pairs(1)`: the set of index pairs
`(i, j)`, `i < j`, whose scaled positions lie within distance 1
(scipy: distance at most `r`), enumerated canonically. -/
def pairsOf (sep : List ℚ) (rows : List PResult) : List (ℕ × ℕ) :=
  (List.range rows.length).flatMap (fun i =>
    ((List.range rows.length).filter (fun j =>
      decide (i < j) && decide (dist2 (scaledPos sep (rows.getD i defaultRow))
        (scaledPos sep (rows.getD j defaultRow)) ≤ 1))).map (fun j => (i, j)))

/-- Which member of a duplicate pair is dropped (lines 188–197): the one
with smaller mass (`np.argmin`, first index on a tie — unreachable here
since ties go to the first branch); on an exact mass tie, the one whose
SCALED position has the smaller coordinate sum
(`np.argsort(np.sum(positions.take(pair, 0), 1))[0]`, stable, so the
lower index wins a sum tie). -/
def dropOf (sep : List ℚ) (rows : List PResult) (pr : ℕ × ℕ) : ℕ :=
  let ri := rows.getD pr.1 defaultRow
  let rj := rows.getD pr.2 defaultRow
  if ri.mass = rj.mass then
    if (scaledPos sep ri).sum ≤ (scaledPos sep rj).sum then pr.1 else pr.2
  else if ri.mass ≤ rj.mass then pr.1 else pr.2

/-- `np.delete(results, to_drop, 0)`: remove the rows whose index occurs
in `toDrop` (occurrence order and multiplicity are irrelevant). -/
def deleteRows (rows : List PResult) (toDrop : List ℕ) : List PResult :=
  (rows.enum.filter (fun p => !(toDrop.contains p.1))).map (fun p => p.2)

/-- One pass of the duplicate-suppression loop, parameterized by the list
of pairs examined (the spatial index returns them as a set; the result
depends only on membership). -/
def dedupPassWith (sep : List ℚ) (ps : List (ℕ × ℕ))
    (rows : List PResult) : List PResult :=
  deleteRows rows (ps.map (dropOf sep rows))

/-- One pass with the canonical pair enumeration. -/
def dedupPass (sep : List ℚ) (rows : List PResult) : List PResult :=
  dedupPassWith sep (pairsOf sep rows) rows

/-- The `while True` loop of lines 179–198, with explicit fuel; the fuel
`rows.length` always suffices because every pass that finds a pair
removes at least one row (proved below). -/
def dedupLoopF (sep : List ℚ) : ℕ → List PResult → List PResult
  | 0, rows => rows
  | f + 1, rows =>
    if (pairsOf sep rows).isEmpty then rows
    else dedupLoopF sep f (dedupPass sep rows)

/-- Duplicate suppression: iterate passes until no pairs remain. -/
def dedup (sep : List ℚ) (rows : List PResult) : List PResult :=
  dedupLoopF sep rows.length rows

/-- `refine(raw_image, image, radius, coords, separation, ...)` with the
python engine (`feature.py` lines 97–200): refine every candidate, then
suppress duplicates — but only when `np.all(np.greater(separation, 0))`;
otherwise (in particular for the default `separation=0`) the
deduplication block is skipped entirely. -/
def refine (shift : List ℚ → List ℚ → List ℚ) (img : NDImage)
    (raw : List ℤ → ℚ) (r : List ℕ) (coords : List (List ℤ))
    (sep : List ℚ) (maxIter : ℕ) (characterize : Bool) : List PResult :=
  let results := coords.map (refineOnePython shift img raw r maxIter characterize)
  if sep.all (fun s => decide (0 < s)) then dedup sep results else results

/-! ## Top-N selection (`locate`, `feature.py` lines 635–641) -/

/-- `np.argmax`: index of the first maximal element. -/
def argmaxFirst : List ℚ → ℕ
  | [] => 0
  | [_] => 0
  | a :: b :: bs =>
    let k := argmaxFirst (b :: bs)
    if a < (b :: bs).getD k 0 then k + 1 else 0

/-- `refined_coords[np.argsort(exact_mass)]` in numpy's insertion-sort
regime (at most 16 rows): gathering the rows by the stable ascending
argsort of the mass column is the stable ascending sort of the rows by
mass. For more than 16 rows numpy's introsort may permute equal masses,
so this function is an exact model only up to 16 rows; results that do
not depend on the tie order are stated against `selectTopnWith` with an
arbitrary ascending-mass permutation instead. -/
def sortByMass (rows : List PResult) : List PResult :=
  insertionSortBy (fun a b => decide (a.mass < b.mass)) rows

/-- The `topn` selection (lines 635–641), parameterized by the function
`srt` that realizes the `np.argsort` row gathering (any ascending-mass
permutation, since the argsort tie order is implementation-defined for
large arrays): keep everything unless more than `topn` features remain;
`topn == 1` takes the first mass argmax, otherwise the last `topn` rows
of the mass-sorted array (the python slice `[-topn:]` keeps the whole
sorted array when `topn = 0`). -/
def selectTopnWith (srt : List PResult → List PResult) (topn : Option ℕ)
    (rows : List PResult) : List PResult :=
  match topn with
  | none => rows
  | some t =>
    if t < rows.length then
      if t = 1 then [rows.getD (argmaxFirst (rows.map (fun row => row.mass))) defaultRow]
      else if t = 0 then srt rows
      else (srt rows).drop (rows.length - t)
    else rows

/-- The `topn` selection with the stable insertion sort, i.e. numpy's
exact behavior in the ≤ 16-row regime. -/
def selectTopn (topn : Option ℕ) (rows : List PResult) : List PResult :=
  selectTopnWith sortByMass topn rows

/-! ## `locate` control flow (`feature.py` lines 565–658)

`locateCore` embeds `locate` from the point where the preprocessed,
integer-typed image exists (the bandpass / `scale_to_gamut` preprocessing
lives in `preprocessing.py`, outside `src/`, and does not affect the
claims below, so the processed image is a parameter), through local-maxima
detection, pre-filtering, refinement (python engine), post-filtering,
top-N selection, the characterize join (black level and the external
uncertainty model `uncertainty.static_error` are parameters, per the spec
they are external collaborators) and the frame tag. -/

/-- `exact_size < maxsize` on the embedded radicand: for `q, m ≥ 0`,
`√q < m ↔ q < m²`; a non-finite or negative radicand (NaN size) compares
`false` as in IEEE. -/
def sqrtLtOpt (radicand : Option ℚ) (m : ℚ) : Bool :=
  match radicand with
  | none => false
  | some q => decide (0 ≤ q) && decide (0 ≤ m) && decide (q < m ^ 2)

/-- `estimate_mass(image, radius, coord)` (lines 73–77). -/
def estimate_mass (img : NDImage) (r : List ℕ) (c : List ℤ) : ℚ :=
  (maskedNB img r c).sum

/-- Radicand of `estimate_size` (lines 80–86): `Σ(R²·N)/m̂`
(`Rg = √·`). -/
def estimateSizeSq (img : NDImage) (r : List ℕ) (c : List ℤ) (em : ℚ) :
    Option ℚ :=
  safeDiv (((List.zip (boxIndices r) (maskedNB img r c)).map
    (fun p => r_squared_mask r p.1 * p.2)).sum) em

/-- The pre-filter predicate (lines 596–607): estimated mass above
`minmass` and, when `maxsize` is set, estimated size below it. -/
def prefilterCond (img : NDImage) (r : List ℕ) (minmass : ℚ)
    (maxsize : Option ℚ) (c : List ℕ) : Bool :=
  let cI := c.map Int.ofNat
  let am := estimate_mass img r cI
  decide (minmass < am) &&
    (match maxsize with
     | none => true
     | some ms => sqrtLtOpt (estimateSizeSq img r cI am) ms)

/-- The post-filter predicate (lines 622–628) on a refined row. (With
`characterize=False` and `maxsize` set the source would fault on a
missing size column; that configuration is outside every claim and the
size test is skipped here when no characterization is present.) -/
def postfilterCond (minmass : ℚ) (maxsize : Option ℚ) (row : PResult) :
    Bool :=
  decide (minmass < row.mass) &&
    (match maxsize with
     | none => true
     | some ms =>
       match row.char with
       | none => true
       | some ch => sqrtLtOpt ch.sizeSq ms)

/-- Result-table coordinate columns for `ndim ≤ 3`
(`['x', 'y', 'z'][:image.ndim]`). -/
def coordColumns (d : ℕ) : List String := ["x", "y", "z"].take d

/-- The margin vector chosen by `locate` (lines 586–587):
`max(rad, sep // 2 − 1, smoothing // 2)` per axis. -/
def locateMargin (radius separation smoothing : List ℕ) : List ℤ :=
  (List.range radius.length).map (fun k =>
    max ((radius.getD k 0 : ℤ))
      (max (((separation.getD k 0 : ℕ) : ℤ) / 2 - 1)
        (((smoothing.getD k 0 : ℕ) : ℤ) / 2)))

/-- A result table: column names and cell rows (`none` embeds a
non-finite float cell; the `size` and `ecc` cells carry the squared
values, see `PChar`). -/
structure LTable where
  columns : List String
  cells : List (List (Option ℚ))
deriving DecidableEq

/-- Flatten one refined row into table cells. -/
def rowCells (row : PResult) : List (Option ℚ) :=
  row.pos.map some ++ [some row.mass] ++
    (match row.char with
     | some ch => [ch.sizeSq, ch.eccSq, some ch.signal]
     | none => [])

/-- `f['signal'] -= black_level` (line 650). -/
def adjustSignal (blackLevel : ℚ) (row : PResult) : PResult :=
  { row with char := row.char.map (fun ch =>
      { ch with signal := ch.signal - blackLevel }) }

/-- `locate` from the processed image on (lines 565–658). Returns the
accumulated warnings and the result table, or the error propagated from
`local_maxima`. -/
def locateCore (shift : List ℚ → List ℚ → List ℚ) (img : NDImage)
    (raw : List ℤ → ℚ) (radius separation smoothing : List ℕ)
    (percentile minmass : ℚ) (maxsize : Option ℚ) (topn : Option ℕ)
    (maxIter : ℕ) (filterBefore filterAfter characterize : Bool)
    (blackLevel : ℚ) (epFn : PResult → Option ℚ) (frameNo : Option ℤ) :
    Except String (List String × LTable) :=
  let d := img.shape.length
  let columns := coordColumns d ++ ["mass"] ++
    (if characterize then ["size", "ecc", "signal"] else [])
  let allColumns := columns ++ (if characterize then ["ep"] else [])
  let margin := locateMargin radius separation smoothing
  match local_maxima img radius percentile margin with
  | .error e => .error e
  | .ok (warns, coords) =>
    if coords.isEmpty then .ok (warns, ⟨allColumns, []⟩)
    else
      let coords2 := if filterBefore then
        coords.filter (prefilterCond img radius minmass maxsize) else coords
      if coords2.isEmpty then
        .ok (warns ++ ["No maxima survived mass- and size-based prefiltering."],
          ⟨allColumns, []⟩)
      else
        let rows := refine shift img raw radius (coords2.map (List.map Int.ofNat))
          (separation.map (fun s : ℕ => (s : ℚ))) maxIter characterize
        let rows2 := if filterAfter then
          rows.filter (postfilterCond minmass maxsize) else rows
        if rows2.isEmpty then
          .ok (warns ++ ["No maxima survived mass- and size-based filtering."],
            ⟨allColumns, []⟩)
        else
          let rows3 := selectTopn topn rows2
          let base : List String × List (List (Option ℚ)) :=
            if characterize then
              (allColumns, rows3.map (fun row =>
                rowCells (adjustSignal blackLevel row) ++ [epFn row]))
            else (columns, rows3.map rowCells)
          let tbl : LTable :=
            match frameNo with
            | some fr => ⟨base.1 ++ ["frame"],
                base.2.map (fun cs => cs ++ [some (fr : ℚ)])⟩
            | none => ⟨base.1, base.2⟩
          .ok (warns, tbl)

/-! ## Concrete instances used to witness the theorems -/

/-- A 5×5 integer test image: all ones with a bright centre pixel. -/
def wimg : NDImage :=
  { shape := [5, 5], pix := fun c => if c = [2, 2] then 10 else 1,
    intDtype := true }

/-- The all-zero 5×5 integer image. -/
def zimg : NDImage := { shape := [5, 5], pix := fun _ => 0, intDtype := true }

/-- The all-zero 5×5 floating-point image. -/
def zimgF : NDImage := { shape := [5, 5], pix := fun _ => 0, intDtype := false }

/-- A 2×2 floating-point image with a nonzero pixel. -/
def fimg : NDImage :=
  { shape := [2, 2], pix := fun c => if c = [0, 0] then 1 else 0,
    intDtype := false }

/-- A concrete stand-in for the spline-interpolation parameter. -/
def shiftId : List ℚ → List ℚ → List ℚ := fun n _ => n

/-- Uniform processed image in 2D function form. -/
def pimg2C : ℤ → ℤ → ℚ := fun _ _ => 1

/-- Raw image whose masked maximum 50 sits at (1, 2). -/
def rimg2C : ℤ → ℤ → ℚ := fun i j => if i = 1 ∧ j = 2 then 50 else 10

/-- The uniform processed image as an `NDImage`. -/
def pimgC : NDImage := { shape := [5, 5], pix := fun _ => 1, intDtype := true }

/-- The raw image `rimg2C` in list-coordinate form. -/
def rawC : List ℤ → ℚ := fun c => if c = [1, 2] then 50 else 10

/-- A refined row with given x, y and mass and no characterization. -/
def prow (x y m : ℚ) : PResult := { pos := [x, y], mass := m, char := none }

/-- Two equal-mass rows: (0, 0.3) and (0.2, 0). -/
def rowsT : List PResult := [prow 0 (3 / 10) 5, prow (1 / 5) 0 5]

/-- Anisotropic separation (image order), reversed to (1, 10) in column
order. -/
def sepT : List ℚ := [10, 1]

/-- Three distinct rows of equal mass 5. -/
def rows3T : List PResult := [prow 1 1 5, prow 2 2 5, prow 3 3 5]

/-- A loop state whose `allow_moves` flag has been cleared. -/
def sFalse : PState :=
  { coord := [2], anchor := [2], nb := [0], cm_n := [1], cm_i := [1],
    allowMoves := false }

/-! ## Helper lemmas -/

/-- Subtracting the radius vector from its own rational cast gives
zeros. -/
theorem zipWith_sub_self_cast (r : List ℕ) :
    List.zipWith (fun (c : ℚ) (rk : ℕ) => c - (rk : ℚ))
        (r.map (fun rk : ℕ => (rk : ℚ))) r
      = List.replicate r.length 0 := by
  induction r with
  | nil => rfl
  | cons a t ih =>
    simp only [List.map_cons, List.zipWith_cons_cons, List.length_cons,
      List.replicate_succ, sub_self]
    exact congrArg (List.cons 0) ih

/-- The centroid offset vanishes when the centroid sits at the mask
center. -/
theorem offCenter_of_center (r : List ℕ) (s : PState)
    (h : s.cm_n = r.map (fun rk : ℕ => (rk : ℚ))) :
    offCenter r s = List.replicate r.length 0 := by
  unfold offCenter
  rw [h]
  exact zipWith_sub_self_cast r

/-- `cm_i = cm_n − radius + coord` is `coord` when the centroid is the
mask center. -/
theorem cmImage_of_center (r : List ℕ) (q : List ℚ)
    (h : q.length = r.length) :
    cmImage r (r.map (fun rk : ℕ => (rk : ℚ))) q = q := by
  induction r generalizing q with
  | nil =>
    cases q with
    | nil => rfl
    | cons b bt => exact absurd h (by simp)
  | cons a t ih =>
    cases q with
    | nil => exact absurd h (by simp)
    | cons b bt =>
      have hl : bt.length = t.length := by simpa using h
      unfold cmImage at ih ⊢
      simp only [List.map_cons, List.zip_cons_cons, List.zipWith_cons_cons]
      rw [ih bt hl]
      have hb : (a : ℚ) - (a : ℕ) + b = b := by ring
      rw [hb]

/-- A zero-sum neighborhood makes `_safe_center_of_mass` return the mask
center. -/
theorem safe_center_of_mass_zero (r : List ℕ) (vals : List ℚ)
    (h : vals.sum = 0) :
    safe_center_of_mass r vals = r.map (fun rk : ℕ => (rk : ℚ)) := by
  unfold safe_center_of_mass
  rw [h]
  simp

/-- Every entry of an all-zero offset passes the convergence test. -/
theorem all_abs_lt_replicate_zero (n : ℕ) :
    (List.replicate n (0 : ℚ)).all (fun q => decide (|q| < GOOD_ENOUGH_PY))
      = true := by
  induction n with
  | zero => rfl
  | succ m ih =>
    rw [List.replicate_succ, List.all_cons, ih, Bool.and_true,
      decide_eq_true_eq]
    norm_num [GOOD_ENOUGH_PY]

/-- A state whose centroid is the mask center is classified converged. -/
theorem stepKind_of_center (r : List ℕ) (s : PState)
    (h : s.cm_n = r.map (fun rk : ℕ => (rk : ℚ))) :
    pythonStepKind r s = .convergedK := by
  have h0 := offCenter_of_center r s h
  simp only [pythonStepKind, h0, all_abs_lt_replicate_zero, if_true]

/-- The refinement loop is the identity on converged states. -/
theorem pythonLoop_of_converged (shift : List ℚ → List ℚ → List ℚ)
    (img : NDImage) (r : List ℕ) (n : ℕ) (s : PState)
    (h : pythonStepKind r s = .convergedK) :
    pythonLoop shift img r n s = s := by
  cases n with
  | zero => rfl
  | succ m => unfold pythonLoop; rw [h]

/-- With `allow_moves` cleared, the branch selector never chooses the
whole-pixel move. -/
theorem stepKind_not_move (r : List ℕ) (s : PState)
    (h : s.allowMoves = false) : pythonStepKind r s ≠ .moveK := by
  unfold pythonStepKind
  simp only [h, Bool.and_false]
  split
  · simp
  · simp

/-- With `allow_moves` cleared, one loop iteration keeps the integer
anchor and keeps the flag cleared. -/
theorem pythonStep_preserve (shift : List ℚ → List ℚ → List ℚ)
    (img : NDImage) (r : List ℕ) (s : PState)
    (h : s.allowMoves = false) :
    (pythonStep shift img r s).anchor = s.anchor ∧
      (pythonStep shift img r s).allowMoves = false := by
  unfold pythonStep
  cases hk : pythonStepKind r s with
  | convergedK => exact ⟨rfl, h⟩
  | moveK => exact absurd hk (stepKind_not_move r s h)
  | interpK => exact ⟨rfl, rfl⟩

/-- A NaN centroid freezes the numba loop (every NaN comparison is
false, so the convergence break fires immediately). -/
theorem numbaLoop_of_nan (img2 : ℤ → ℤ → ℚ) (r : ℕ) (s0 s1 : ℤ) (n : ℕ)
    (s : NState) (h : s.cm = (none, none)) :
    numbaLoop img2 r s0 s1 n s = s := by
  cases n with
  | zero => rfl
  | succ m =>
    unfold numbaLoop
    rw [h]
    simp [osub, ogtAbs]

/-! ## The claims -/

/-- C1 (amended): for every candidate whose masked neighborhood sums to
zero, neither engine raises; the PYTHON engine defaults the centroid to
the mask center, so `pos` equals the integer anchor (reported in reversed
order) and `mass = 0`; the NUMBA engine also reports `mass = 0`, but its
unguarded `cm_n[dim] /= mass_` produces a NaN centroid, so its reported
position is NaN, not the anchor. -/
theorem zero_mass_refinement :
    (∀ (shift : List ℚ → List ℚ → List ℚ) (img : NDImage)
      (raw : List ℤ → ℚ) (r : List ℕ) (maxIter : ℕ) (characterize : Bool)
      (x0 : List ℤ), x0.length = r.length → (maskedNB img r x0).sum = 0 →
      (refineOnePython shift img raw r maxIter characterize x0).pos
          = (x0.map (fun z : ℤ => (z : ℚ))).reverse ∧
        (refineOnePython shift img raw r maxIter characterize x0).mass = 0) ∧
    (∀ (img2 raw2 : ℤ → ℤ → ℚ) (rad : ℕ) (s0 s1 : ℤ) (maxIter : ℕ)
      (characterize : Bool) (c : ℚ × ℚ),
      sqMass img2 rad (pyRound c.1 - rad, pyRound c.2 - rad) = 0 →
      (numbaRefineOne img2 raw2 rad s0 s1 maxIter characterize c).mass = 0 ∧
        (numbaRefineOne img2 raw2 rad s0 s1 maxIter characterize c).pos
          = (none, none)) := by
  constructor
  · intro shift img raw r maxIter characterize x0 hlen hsum
    have hcm : (pInit img r x0).cm_n = r.map (fun rk : ℕ => (rk : ℚ)) := by
      show safe_center_of_mass r (maskedNB img r x0) = _
      exact safe_center_of_mass_zero r _ hsum
    have hloop := pythonLoop_of_converged shift img r maxIter (pInit img r x0)
      (stepKind_of_center r (pInit img r x0) hcm)
    have hcmi : (pInit img r x0).cm_i = x0.map (fun z : ℤ => (z : ℚ)) := by
      show cmImage r (safe_center_of_mass r (maskedNB img r x0))
        (x0.map (fun z : ℤ => (z : ℚ))) = _
      rw [safe_center_of_mass_zero r _ hsum]
      exact cmImage_of_center r _ (by rw [List.length_map]; exact hlen)
    have hnb : (pInit img r x0).nb = maskedNB img r x0 := rfl
    simp only [refineOnePython, hloop]
    exact ⟨by rw [hcmi], by rw [hnb, hsum]⟩
  · intro img2 raw2 rad s0 s1 maxIter characterize c hm
    have hinit : (nInit img2 rad c).cm = (none, none) := by
      simp [nInit, hm, safeDiv]
    have hsq : (nInit img2 rad c).sq = (pyRound c.1 - rad, pyRound c.2 - rad) := rfl
    have hcmi : (nInit img2 rad c).cmi = (none, none) := by
      simp [nInit, hm, safeDiv, osub, oadd]
    have hloop := numbaLoop_of_nan img2 rad s0 s1 maxIter (nInit img2 rad c) hinit
    simp only [numbaRefineOne, hloop]
    constructor
    · rw [hsq]; exact hm
    · rw [hcmi]

/-- Closed instantiation of `zero_mass_refinement` at the all-zero 5×5
image, candidate (2,2), radius 1: the python engine reports the anchor
and zero mass, the numba engine zero mass and NaN position. -/
theorem zero_mass_refinement_witness :
    ((maskedNB zimg [1, 1] [2, 2]).sum = 0 ∧
      (refineOnePython shiftId zimg (fun _ => 0) [1, 1] 10 true [2, 2]).pos
          = [(2 : ℚ), 2] ∧
        (refineOnePython shiftId zimg (fun _ => 0) [1, 1] 10 true [2, 2]).mass = 0) ∧
    (sqMass (fun _ _ => 0) 1 (pyRound (2 : ℚ) - 1, pyRound (2 : ℚ) - 1) = 0 ∧
      (numbaRefineOne (fun _ _ => 0) (fun _ _ => 0) 1 5 5 10 true (2, 2)).mass = 0 ∧
        (numbaRefineOne (fun _ _ => 0) (fun _ _ => 0) 1 5 5 10 true (2, 2)).pos
          = (none, none)) := by
  have h1 := zero_mass_refinement.1 shiftId zimg (fun _ => 0) [1, 1] 10 true
    [2, 2] (by decide) (by with_unfolding_all rfl)
  have h2 := zero_mass_refinement.2 (fun _ _ => 0) (fun _ _ => 0) 1 5 5 10 true
    (2, 2) (by with_unfolding_all rfl)
  refine ⟨⟨by with_unfolding_all rfl, ?_, h1.2⟩,
    ⟨by with_unfolding_all rfl, h2.1, h2.2⟩⟩
  rw [h1.1]
  with_unfolding_all rfl

/-- C1 (counterexample to the claim as stated): on the all-zero image
the numba engine does NOT report `pos = x`; the reported position is NaN
(`none`), not the integer anchor (2, 2). -/
theorem zero_mass_numba_pos_nan :
    (numbaRefineOne (fun _ _ => 0) (fun _ _ => 0) 1 5 5 10 true (2, 2)).pos
        = (none, none) ∧
      (numbaRefineOne (fun _ _ => 0) (fun _ _ => 0) 1 5 5 10 true (2, 2)).pos
        ≠ (some 2, some 2) := by
  constructor
  · with_unfolding_all rfl
  · with_unfolding_all decide

/-- C3: in the `_refine` per-candidate loop, the interpolation branch
clears `allow_moves`; with `allow_moves` cleared the move branch can
never be selected again, and any number of further loop iterations
leaves the integer anchor unchanged and the flag cleared. -/
theorem no_moves_after_interpolation :
    (∀ (shift : List ℚ → List ℚ → List ℚ) (img : NDImage) (r : List ℕ)
      (s : PState), pythonStepKind r s = .interpK →
      (pythonStep shift img r s).allowMoves = false ∧
        (pythonStep shift img r s).anchor = s.anchor) ∧
    (∀ (r : List ℕ) (s : PState), s.allowMoves = false →
      pythonStepKind r s ≠ .moveK) ∧
    (∀ (shift : List ℚ → List ℚ → List ℚ) (img : NDImage) (r : List ℕ)
      (n : ℕ) (s : PState), s.allowMoves = false →
      (pythonLoop shift img r n s).anchor = s.anchor ∧
        (pythonLoop shift img r n s).allowMoves = false) := by
  refine ⟨?_, ?_, ?_⟩
  · intro shift img r s hk
    unfold pythonStep
    rw [hk]
    exact ⟨rfl, rfl⟩
  · exact stepKind_not_move
  · intro shift img r n
    induction n with
    | zero => intro s h; exact ⟨rfl, h⟩
    | succ m ih =>
      intro s h
      unfold pythonLoop
      cases hk : pythonStepKind r s with
      | convergedK => exact ⟨rfl, h⟩
      | moveK => exact absurd hk (stepKind_not_move r s h)
      | interpK =>
        have hp := pythonStep_preserve shift img r s h
        have := ih (pythonStep shift img r s) hp.2
        exact ⟨by rw [this.1, hp.1], this.2⟩

/-- Closed instantiation of `no_moves_after_interpolation` at a concrete
cleared state: three further iterations keep the anchor `[2]`. -/
theorem no_moves_after_interpolation_witness :
    sFalse.allowMoves = false ∧
      (pythonLoop shiftId wimg [1] 3 sFalse).anchor = sFalse.anchor ∧
        (pythonLoop shiftId wimg [1] 3 sFalse).allowMoves = false := by
  exact ⟨rfl, no_moves_after_interpolation.2.2 shiftId wimg [1] 3 sFalse rfl⟩

/-- C4: every coordinate returned by `local_maxima` respects the edge
margin on every axis: `mₖ ≤ xₖ ≤ shapeₖ − mₖ − 1`. -/
theorem local_maxima_margin :
    ∀ (img : NDImage) (r : List ℕ) (p : ℚ) (margin : List ℤ)
      (warns : List String) (xs : List (List ℕ)) (x : List ℕ) (k : ℕ),
      local_maxima img r p margin = .ok (warns, xs) → x ∈ xs →
      k < img.shape.length →
      margin.getD k 0 ≤ (x.getD k 0 : ℤ) ∧
        (x.getD k 0 : ℤ) ≤ (img.shape.getD k 0 : ℤ) - margin.getD k 0 - 1 := by
  intro img r p margin warns xs x k hok hmem hk
  unfold local_maxima at hok
  split at hok
  · simp only [Except.ok.injEq, Prod.mk.injEq] at hok
    rw [← hok.2] at hmem
    exact absurd hmem (List.not_mem_nil x)
  · split at hok
    · exact absurd hok (by simp)
    · dsimp only [] at hok
      split at hok
      · simp only [Except.ok.injEq, Prod.mk.injEq] at hok
        rw [← hok.2] at hmem
        exact absurd hmem (List.not_mem_nil x)
      · simp only [Except.ok.injEq, Prod.mk.injEq] at hok
        rw [← hok.2] at hmem
        have hedge : nearEdge img.shape margin x = false := by
          have := (List.mem_filter.mp hmem).2
          simpa using this
        unfold nearEdge at hedge
        rw [List.any_eq_false] at hedge
        have hkk := hedge k (List.mem_range.mpr hk)
        simp only [Bool.or_eq_true, decide_eq_true_eq, not_or] at hkk
        exact ⟨le_of_not_lt hkk.1, le_of_not_lt hkk.2⟩

/-- Closed instantiation of `local_maxima_margin`: on the 5×5 test image
with margin (1, 1) the single returned maximum (2, 2) obeys
`1 ≤ 2 ≤ 5 − 1 − 1` on axis 0. -/
theorem local_maxima_margin_witness :
    local_maxima wimg [1, 1] 64 [1, 1] = .ok ([], [[2, 2]]) ∧
      ([1, 1] : List ℤ).getD 0 0 ≤ (([2, 2] : List ℕ).getD 0 0 : ℤ) ∧
        (([2, 2] : List ℕ).getD 0 0 : ℤ)
          ≤ (wimg.shape.getD 0 0 : ℤ) - ([1, 1] : List ℤ).getD 0 0 - 1 := by
  have h := local_maxima_margin wimg [1, 1] 64 [1, 1] [] [[2, 2]] [2, 2] 0
    (by with_unfolding_all rfl) (by decide) (by decide)
  exact ⟨by with_unfolding_all rfl, h.1, h.2⟩

/-- C8 (amended): `local_maxima` raises the dtype `TypeError` for every
non-integer image that has at least one nonzero pixel; the percentile
threshold is computed first, so an entirely zero image returns empty
(with the black-image warning) without raising, whatever its dtype. -/
theorem local_maxima_type_error :
    ∀ (img : NDImage) (r : List ℕ) (p : ℚ) (margin : List ℤ),
      img.intDtype = false → nonzeroValues img ≠ [] →
      local_maxima img r p margin
        = .error "Perform dilation on exact (i.e., integer) data." := by
  intro img r p margin hdtype hnz
  have hne : (nonzeroValues img).isEmpty = false := by
    rw [List.isEmpty_eq_false]
    exact hnz
  unfold local_maxima percentile_threshold
  simp only [hne, Bool.false_eq_true, if_false, hdtype, if_true]

/-- Closed instantiation of `local_maxima_type_error` at a floating-point
image with a nonzero pixel. -/
theorem local_maxima_type_error_witness :
    (fimg.intDtype = false ∧ nonzeroValues fimg ≠ []) ∧
      local_maxima fimg [1, 1] 64 [1, 1]
        = .error "Perform dilation on exact (i.e., integer) data." :=
  ⟨⟨rfl, by with_unfolding_all decide⟩,
    local_maxima_type_error fimg [1, 1] 64 [1, 1] rfl
      (by with_unfolding_all decide)⟩

/-- C8 (counterexample to the claim as stated): the entirely zero
floating-point image does not raise; `local_maxima` warns and returns
empty because the black-image check precedes the dtype check. -/
theorem local_maxima_black_float_no_raise :
    zimgF.intDtype = false ∧
      local_maxima zimgF [1, 1] 64 [1, 1]
        = .ok (["Image is completely black."], []) :=
  ⟨rfl, by with_unfolding_all rfl⟩

/-- C10: `refine` runs duplicate suppression only when every separation
component is strictly positive (`np.all(np.greater(separation, 0))`);
otherwise — in particular for the default `separation=0` — the
deduplication block is skipped and the engine results are returned as
is, so even two identical candidates both appear in the output. -/
theorem refine_skips_dedup_on_nonpositive_separation :
    (∀ (shift : List ℚ → List ℚ → List ℚ) (img : NDImage)
      (raw : List ℤ → ℚ) (r : List ℕ) (coords : List (List ℤ))
      (sep : List ℚ) (maxIter : ℕ) (characterize : Bool),
      sep.all (fun s => decide (0 < s)) = false →
      refine shift img raw r coords sep maxIter characterize
        = coords.map (refineOnePython shift img raw r maxIter characterize)) ∧
    (∀ (shift : List ℚ → List ℚ → List ℚ) (img : NDImage)
      (raw : List ℤ → ℚ) (r : List ℕ) (x : List ℤ) (maxIter : ℕ)
      (characterize : Bool) (d : ℕ), 0 < d →
      (refine shift img raw r [x, x] (List.replicate d 0) maxIter
        characterize).length = 2) := by
  have hskip : ∀ (shift : List ℚ → List ℚ → List ℚ) (img : NDImage)
      (raw : List ℤ → ℚ) (r : List ℕ) (coords : List (List ℤ))
      (sep : List ℚ) (maxIter : ℕ) (characterize : Bool),
      sep.all (fun s => decide (0 < s)) = false →
      refine shift img raw r coords sep maxIter characterize
        = coords.map (refineOnePython shift img raw r maxIter characterize) := by
    intro shift img raw r coords sep maxIter characterize h
    simp only [refine, h, Bool.false_eq_true, if_false]
  refine ⟨hskip, ?_⟩
  intro shift img raw r x maxIter characterize d hd
  have hall : (List.replicate d (0 : ℚ)).all (fun s => decide (0 < s))
      = false := by
    cases d with
    | zero => exact absurd hd (by norm_num)
    | succ m =>
      rw [List.replicate_succ, List.all_cons]
      simp
  rw [hskip shift img raw r [x, x] (List.replicate d 0) maxIter characterize
    hall]
  rfl

/-- Closed instantiation of
`refine_skips_dedup_on_nonpositive_separation` at `separation = (0, 0)`
and two identical candidates. -/
theorem refine_skips_dedup_witness :
    (([(0 : ℚ), 0]).all (fun s => decide (0 < s)) = false) ∧
      refine shiftId zimg (fun _ => 0) [1, 1] [[2, 2], [2, 2]] [0, 0] 1 false
        = [[2, 2], [2, 2]].map
            (refineOnePython shiftId zimg (fun _ => 0) [1, 1] 1 false) :=
  ⟨by with_unfolding_all rfl,
    refine_skips_dedup_on_nonpositive_separation.1 shiftId zimg (fun _ => 0)
      [1, 1] [[2, 2], [2, 2]] [0, 0] 1 false (by with_unfolding_all rfl)⟩

/-- C2: on a concrete input the numba engine's reported signal is the
PROCESSED pixel value (1) stored when the raw pixel exceeded the running
value, not the masked raw maximum (50); the python engine reports the
masked raw maximum 50 at the same anchor, as the claim states. -/
theorem numba_signal_not_raw_max :
    ((numbaRefineOne pimg2C rimg2C 1 5 5 10 true (2, 2)).char.map
        PChar.signal = some 1) ∧
      ((refineOnePython shiftId pimgC rawC [1, 1] 10 true [2, 2]).char.map
        PChar.signal = some 50) ∧
      listMax ((boxIndices [1, 1]).map
          (fun i => binary_mask [1, 1] i * rawC (offsetCoord' [2, 2] i [1, 1])))
        = 50 ∧
      (1 : ℚ) ≠ 50 := by
  refine ⟨?_, ?_, ?_, by norm_num⟩
  · with_unfolding_all rfl
  · with_unfolding_all rfl
  · with_unfolding_all rfl

/-- Every pair produced by the spatial index satisfies `i < j < n`. -/
theorem pairsOf_mem_lt (sep : List ℚ) (rows : List PResult) (i j : ℕ)
    (h : (i, j) ∈ pairsOf sep rows) : i < j ∧ j < rows.length := by
  unfold pairsOf at h
  rw [List.mem_flatMap] at h
  obtain ⟨a, _, hmem⟩ := h
  rw [List.mem_map] at hmem
  obtain ⟨b, hb, heq⟩ := hmem
  obtain ⟨rfl, rfl⟩ := Prod.mk.injEq .. ▸ heq
  rw [List.mem_filter] at hb
  obtain ⟨hrange, hcond⟩ := hb
  rw [Bool.and_eq_true, decide_eq_true_eq] at hcond
  exact ⟨hcond.1, List.mem_range.mp hrange⟩

/-- The dropped member of a pair is one of its two components. -/
theorem dropOf_cases (sep : List ℚ) (rows : List PResult) (pr : ℕ × ℕ) :
    dropOf sep rows pr = pr.1 ∨ dropOf sep rows pr = pr.2 := by
  unfold dropOf
  dsimp only []
  split
  · split
    · exact Or.inl rfl
    · exact Or.inr rfl
  · split
    · exact Or.inl rfl
    · exact Or.inr rfl

/-- C6 shrink lemma: a pass that found at least one pair deletes at least
one row. -/
theorem dedupPass_shrinks (sep : List ℚ) (rows : List PResult)
    (h : pairsOf sep rows ≠ []) :
    (dedupPass sep rows).length < rows.length := by
  obtain ⟨pr, hpr⟩ := List.exists_mem_of_ne_nil _ h
  obtain ⟨i, j⟩ := pr
  have hb := pairsOf_mem_lt sep rows i j hpr
  have haLt : dropOf sep rows (i, j) < rows.length := by
    rcases dropOf_cases sep rows (i, j) with h1 | h1 <;> rw [h1]
    · exact lt_trans hb.1 hb.2
    · exact hb.2
  have haMem : dropOf sep rows (i, j)
      ∈ (pairsOf sep rows).map (dropOf sep rows) :=
    List.mem_map_of_mem _ hpr
  unfold dedupPass dedupPassWith deleteRows
  rw [List.length_map]
  have hlen : dropOf sep rows (i, j) < rows.enum.length := by
    rw [List.enum_length]; exact haLt
  have hfl : (rows.enum.filter
      (fun p => !(((pairsOf sep rows).map (dropOf sep rows)).contains p.1))).length
      < rows.enum.length := by
    refine List.length_filter_lt_length_iff_exists.mpr
      ⟨rows.enum[dropOf sep rows (i, j)], List.getElem_mem hlen, ?_⟩
    rw [List.getElem_enum]
    simp [List.contains, List.elem_eq_mem, haMem]
  rw [List.enum_length] at hfl
  exact hfl

/-- C6 fixpoint lemma: fuel equal to the row count always suffices, and
the loop result has no remaining pairs. -/
theorem dedupLoopF_no_pairs (sep : List ℚ) :
    ∀ (f : ℕ) (rows : List PResult), rows.length ≤ f →
      pairsOf sep (dedupLoopF sep f rows) = [] := by
  intro f
  induction f with
  | zero =>
    intro rows h
    have hnil : rows = [] := List.eq_nil_of_length_eq_zero (Nat.le_zero.mp h)
    subst hnil
    rfl
  | succ m ih =>
    intro rows h
    unfold dedupLoopF
    cases hemp : (pairsOf sep rows).isEmpty with
    | true =>
      rw [if_pos rfl]
      exact List.isEmpty_iff.mp hemp
    | false =>
      rw [if_neg (by simp)]
      refine ih (dedupPass sep rows) ?_
      have hne : pairsOf sep rows ≠ [] := by
        intro hc
        rw [hc] at hemp
        exact absurd hemp (by simp)
      have := dedupPass_shrinks sep rows hne
      omega

/-- C6: with a positive separation vector the duplicate-suppression loop
terminates: every pass that finds a pair strictly shrinks the row list,
and the loop reaches a state with no remaining pairs. -/
theorem dedup_loop_terminates :
    ∀ (sep : List ℚ) (rows : List PResult),
      sep.all (fun s => decide (0 < s)) = true →
      ((pairsOf sep rows ≠ [] →
          (dedupPass sep rows).length < rows.length) ∧
        pairsOf sep (dedup sep rows) = []) := by
  intro sep rows _
  exact ⟨fun h => dedupPass_shrinks sep rows h,
    dedupLoopF_no_pairs sep rows.length rows le_rfl⟩

/-- Closed instantiation of `dedup_loop_terminates`: two coincident rows
form a pair, the pass drops one and the loop ends with no pairs. -/
theorem dedup_loop_terminates_witness :
    ([(1 : ℚ), 1].all (fun s => decide (0 < s)) = true) ∧
      pairsOf [1, 1] [prow 0 0 1, prow 0 0 2] ≠ [] ∧
      (dedupPass [1, 1] [prow 0 0 1, prow 0 0 2]).length
          < ([prow 0 0 1, prow 0 0 2] : List PResult).length ∧
      pairsOf [1, 1] (dedup [1, 1] [prow 0 0 1, prow 0 0 2]) = [] := by
  have h := dedup_loop_terminates [1, 1] [prow 0 0 1, prow 0 0 2]
    (by with_unfolding_all rfl)
  exact ⟨by with_unfolding_all rfl, by with_unfolding_all decide,
    h.1 (by with_unfolding_all decide), h.2⟩

/-- C5 (counterexample to the claim as stated): for the equal-mass pair
`rowsT` under the anisotropic separation `sepT`, the claim demands that
the feature with the smaller UNSCALED coordinate sum (index 1, sum 0.2 <
0.3) be dropped, but the code sums the SCALED positions and drops index
0 instead: the survivor is exactly the row the claim says should have
been dropped. -/
theorem dedup_tiebreak_counterexample :
    pairsOf sepT rowsT = [(0, 1)] ∧
      (rowsT.getD 0 defaultRow).mass = (rowsT.getD 1 defaultRow).mass ∧
      (rowsT.getD 1 defaultRow).pos.sum < (rowsT.getD 0 defaultRow).pos.sum ∧
      dedup sepT rowsT = [prow (1 / 5) 0 5] := by
  refine ⟨?_, ?_, ?_, ?_⟩
  · with_unfolding_all rfl
  · with_unfolding_all rfl
  · with_unfolding_all decide
  · with_unfolding_all rfl

/-- C5 (amended): on an exact mass tie the member dropped is the one
whose SCALED position (position divided componentwise by the reversed
separation) has the smaller coordinate sum (the lower index on a sum
tie), and one pass of the deduplicator is independent of the order in
which the spatial index hands over the pairs. -/
theorem dedup_tiebreak_scaled :
    (∀ (sep : List ℚ) (rows : List PResult) (i j : ℕ),
      (i, j) ∈ pairsOf sep rows →
      (rows.getD i defaultRow).mass = (rows.getD j defaultRow).mass →
      (if (scaledPos sep (rows.getD i defaultRow)).sum
          ≤ (scaledPos sep (rows.getD j defaultRow)).sum then i else j)
        ∈ (pairsOf sep rows).map (dropOf sep rows)) ∧
    (∀ (sep : List ℚ) (rows : List PResult) (ps : List (ℕ × ℕ)),
      ps.Perm (pairsOf sep rows) →
      dedupPassWith sep ps rows = dedupPass sep rows) := by
  constructor
  · intro sep rows i j hp hm
    have hdrop : dropOf sep rows (i, j)
        = (if (scaledPos sep (rows.getD i defaultRow)).sum
            ≤ (scaledPos sep (rows.getD j defaultRow)).sum then i else j) := by
      unfold dropOf
      rw [if_pos hm]
    rw [← hdrop]
    exact List.mem_map_of_mem _ hp
  · intro sep rows ps hperm
    unfold dedupPass dedupPassWith deleteRows
    congr 1
    apply List.filter_congr
    intro p _
    have hmemiff := (hperm.map (dropOf sep rows)).mem_iff (a := p.1)
    have hc : (ps.map (dropOf sep rows)).contains p.1
        = ((pairsOf sep rows).map (dropOf sep rows)).contains p.1 := by
      rw [List.contains, List.contains, List.elem_eq_mem, List.elem_eq_mem]
      exact decide_eq_decide.mpr hmemiff
    rw [hc]

/-- Closed instantiation of `dedup_tiebreak_scaled` at the concrete
equal-mass pair: the scaled tie-break selects index 0 to drop, and the
pass result is the same for the permuted pair list. -/
theorem dedup_tiebreak_scaled_witness :
    ((0, 1) ∈ pairsOf sepT rowsT ∧
      (rowsT.getD 0 defaultRow).mass = (rowsT.getD 1 defaultRow).mass) ∧
      ((if (scaledPos sepT (rowsT.getD 0 defaultRow)).sum
          ≤ (scaledPos sepT (rowsT.getD 1 defaultRow)).sum then 0 else 1)
        ∈ (pairsOf sepT rowsT).map (dropOf sepT rowsT)) ∧
      dedupPassWith sepT [(0, 1)] rowsT = dedupPass sepT rowsT := by
  have hpair : (0, 1) ∈ pairsOf sepT rowsT := by with_unfolding_all decide
  have hmass : (rowsT.getD 0 defaultRow).mass
      = (rowsT.getD 1 defaultRow).mass := by with_unfolding_all rfl
  have hperm : ([(0, 1)] : List (ℕ × ℕ)).Perm (pairsOf sepT rowsT) := by
    rw [show pairsOf sepT rowsT = [(0, 1)] from by with_unfolding_all rfl]
  exact ⟨⟨hpair, hmass⟩, dedup_tiebreak_scaled.1 sepT rowsT 0 1 hpair hmass,
    dedup_tiebreak_scaled.2 sepT rowsT [(0, 1)] hperm⟩

/-- Inserting into a list permutes consing onto it. -/
theorem insertAsc_perm (lt : α → α → Bool) (a : α) (l : List α) :
    (insertAsc lt a l).Perm (a :: l) := by
  induction l with
  | nil => exact List.Perm.refl _
  | cons b bs ih =>
    unfold insertAsc
    split
    · exact (ih.cons b).trans (List.Perm.swap a b bs)
    · exact List.Perm.refl _

/-- The insertion sort permutes its input. -/
theorem insertionSortBy_perm (lt : α → α → Bool) (l : List α) :
    (insertionSortBy lt l).Perm l := by
  induction l with
  | nil => exact List.Perm.refl _
  | cons a as ih => exact (insertAsc_perm lt a _).trans (ih.cons a)

/-- Insertion preserves sortedness (pairwise `lt y x = false`) for an
asymmetric, negatively transitive comparison. -/
theorem insertAsc_pairwise (lt : α → α → Bool)
    (hasym : ∀ a b, lt a b = true → lt b a = false)
    (htrans : ∀ a b c, lt b a = false → lt c b = false → lt c a = false)
    (a : α) (l : List α) (hl : l.Pairwise (fun x y => lt y x = false)) :
    (insertAsc lt a l).Pairwise (fun x y => lt y x = false) := by
  induction l with
  | nil => exact List.pairwise_singleton _ _
  | cons b bs ih =>
    rw [List.pairwise_cons] at hl
    unfold insertAsc
    split
    case isTrue hba =>
      rw [List.pairwise_cons]
      refine ⟨?_, ih hl.2⟩
      intro y hy
      have hy2 : y ∈ a :: bs := (insertAsc_perm lt a bs).mem_iff.mp hy
      cases hy2 with
      | head => exact hasym b a hba
      | tail _ hmem => exact hl.1 y hmem
    case isFalse hba =>
      have hba2 : lt b a = false := by
        revert hba; cases lt b a <;> simp
      rw [List.pairwise_cons]
      refine ⟨?_, List.pairwise_cons.mpr hl⟩
      intro y hy
      cases hy with
      | head => exact hba2
      | tail _ hmem => exact htrans a b y hba2 (hl.1 y hmem)

/-- The insertion sort is sorted for an asymmetric, negatively
transitive comparison. -/
theorem insertionSortBy_pairwise (lt : α → α → Bool)
    (hasym : ∀ a b, lt a b = true → lt b a = false)
    (htrans : ∀ a b c, lt b a = false → lt c b = false → lt c a = false)
    (l : List α) :
    (insertionSortBy lt l).Pairwise (fun x y => lt y x = false) := by
  induction l with
  | nil => exact List.Pairwise.nil
  | cons a as ih => exact insertAsc_pairwise lt hasym htrans a _ ih

/-- `sortByMass` permutes its input. -/
theorem sortByMass_perm (rows : List PResult) :
    (sortByMass rows).Perm rows :=
  insertionSortBy_perm _ rows

/-- `sortByMass` is ascending in mass. -/
theorem sortByMass_pairwise (rows : List PResult) :
    (sortByMass rows).Pairwise (fun x y => x.mass ≤ y.mass) := by
  have h := insertionSortBy_pairwise
    (fun a b : PResult => decide (a.mass < b.mass))
    (fun a b hab => by
      rw [decide_eq_true_eq] at hab
      rw [decide_eq_false_iff_not]
      exact lt_asymm hab)
    (fun a b c hba hcb => by
      rw [decide_eq_false_iff_not] at hba hcb
      rw [decide_eq_false_iff_not]
      exact not_lt_of_le (le_trans (le_of_not_lt hba) (le_of_not_lt hcb)))
    rows
  refine h.imp ?_
  intro a b hab
  rw [decide_eq_false_iff_not] at hab
  exact le_of_not_lt hab

/-- A stable sort leaves a list of equal keys in place. -/
theorem sortByMass_of_const (rows : List PResult) (c : ℚ)
    (h : ∀ x ∈ rows, x.mass = c) : sortByMass rows = rows := by
  induction rows with
  | nil => rfl
  | cons a as ih =>
    have has : ∀ x ∈ as, x.mass = c := fun x hx => h x (List.mem_cons_of_mem a hx)
    show insertAsc _ a (insertionSortBy _ as) = a :: as
    rw [show insertionSortBy (fun a b : PResult => decide (a.mass < b.mass)) as
      = sortByMass as from rfl, ih has]
    cases as with
    | nil => rfl
    | cons b bs =>
      unfold insertAsc
      rw [if_neg]
      rw [h a (List.mem_cons_self a _), h b (List.mem_cons_of_mem a (List.mem_cons_self b bs))]
      simp

/-- `np.argmax` returns the index of a maximal element. -/
theorem argmaxFirst_le (ms : List ℚ) :
    ∀ y ∈ ms, y ≤ ms.getD (argmaxFirst ms) 0 := by
  induction ms with
  | nil => intro y hy; exact absurd hy (List.not_mem_nil y)
  | cons a rest ih =>
    cases rest with
    | nil =>
      intro y hy
      rw [List.mem_singleton] at hy
      subst hy
      exact le_refl y
    | cons b bs =>
      intro y hy
      show y ≤ (a :: b :: bs).getD
        (if a < (b :: bs).getD (argmaxFirst (b :: bs)) 0
          then argmaxFirst (b :: bs) + 1 else 0) 0
      split
      case isTrue hlt =>
        rw [List.getD_cons_succ]
        cases hy with
        | head => exact le_of_lt hlt
        | tail _ h2 => exact ih y h2
      case isFalse hlt =>
        rw [List.getD_cons_zero]
        cases hy with
        | head => exact le_refl a
        | tail _ h2 => exact le_trans (ih y h2) (le_of_not_lt hlt)

/-- `np.argmax` of a nonempty list is a valid index. -/
theorem argmaxFirst_lt_length (ms : List ℚ) (h : ms ≠ []) :
    argmaxFirst ms < ms.length := by
  induction ms with
  | nil => exact absurd rfl h
  | cons a rest ih =>
    cases rest with
    | nil => show 0 < 1; norm_num
    | cons b bs =>
      show (if a < (b :: bs).getD (argmaxFirst (b :: bs)) 0
        then argmaxFirst (b :: bs) + 1 else 0) < (a :: b :: bs).length
      split
      · have := ih (by simp)
        simpa using Nat.succ_lt_succ this
      · simp

/-- C7 (amended): with `topn` set, (i) if at most `topn` features remain
all are kept; (ii) otherwise exactly `topn` rows are kept and (iii) each
kept row is exceeded in mass by fewer than `topn` of the input rows (the
kept rows are among the top `topn` by mass) — (i)–(iii) hold for EVERY
realization `srt` of the `np.argsort` row gathering that permutes the
rows (ascending in mass for (iii)), i.e. independently of the
implementation-defined tie order of numpy's introsort; but (iv) mass
ties are NOT broken in favor of earlier features: in numpy's stable
insertion-sort regime (at most 16 rows, where `sortByMass` is the exact
argsort gathering) a `topn ≥ 2` selection over an all-tied input keeps
the LAST `topn` rows, i.e. the later-indexed features (whereas
`topn = 1` keeps the first maximal feature). -/
theorem topn_selection :
    (∀ (srt : List PResult → List PResult) (rows : List PResult) (t : ℕ),
      rows.length ≤ t → selectTopnWith srt (some t) rows = rows) ∧
    (∀ (srt : List PResult → List PResult) (rows : List PResult) (t : ℕ),
      (srt rows).Perm rows → 0 < t → t < rows.length →
      (selectTopnWith srt (some t) rows).length = t) ∧
    (∀ (srt : List PResult → List PResult) (rows : List PResult) (t : ℕ),
      (srt rows).Perm rows →
      (srt rows).Pairwise (fun x y => x.mass ≤ y.mass) →
      0 < t → t < rows.length →
      ∀ x ∈ selectTopnWith srt (some t) rows,
        (rows.filter (fun y => decide (x.mass < y.mass))).length < t) ∧
    (∀ (rows : List PResult) (c : ℚ) (t : ℕ), 2 ≤ t → t < rows.length →
      rows.length ≤ 16 → (∀ x ∈ rows, x.mass = c) →
      selectTopn (some t) rows = rows.drop (rows.length - t)) := by
  refine ⟨?_, ?_, ?_, ?_⟩
  · intro srt rows t h
    simp only [selectTopnWith]
    rw [if_neg (Nat.not_lt.mpr h)]
  · intro srt rows t hperm ht0 htn
    simp only [selectTopnWith]
    rw [if_pos htn]
    by_cases h1 : t = 1
    · subst h1
      rw [if_pos rfl]
      rfl
    · rw [if_neg h1, if_neg (by omega : ¬ t = 0), List.length_drop,
        hperm.length_eq]
      omega
  · intro srt rows t hperm hsorted ht0 htn x hx
    simp only [selectTopnWith] at hx
    rw [if_pos htn] at hx
    by_cases h1 : t = 1
    · subst h1
      rw [if_pos rfl, List.mem_singleton] at hx
      subst hx
      have hlen : rows.length = (rows.map (fun row => row.mass)).length :=
        (List.length_map _ _).symm
      have hne : rows.map (fun row => row.mass) ≠ [] := by
        apply List.ne_nil_of_length_pos
        rw [← hlen]
        omega
      have hidx := argmaxFirst_lt_length (rows.map (fun row => row.mass)) hne
      have hidx2 : argmaxFirst (rows.map (fun row => row.mass)) < rows.length := by
        rw [hlen]; exact hidx
      have hval : (rows.getD (argmaxFirst (rows.map (fun row => row.mass)))
          defaultRow).mass
          = (rows.map (fun row => row.mass)).getD
              (argmaxFirst (rows.map (fun row => row.mass))) 0 := by
        rw [List.getD_eq_getElem rows defaultRow hidx2,
          List.getD_eq_getElem _ 0 hidx, List.getElem_map]
      have hmax := argmaxFirst_le (rows.map (fun row => row.mass))
      have hnil : rows.filter (fun y =>
          decide ((rows.getD (argmaxFirst (rows.map (fun row => row.mass)))
            defaultRow).mass < y.mass)) = [] := by
        rw [List.filter_eq_nil_iff]
        intro y hy
        rw [decide_eq_true_eq, hval]
        exact not_lt_of_le (hmax y.mass (List.mem_map_of_mem _ hy))
      rw [hnil]
      norm_num
    · rw [if_neg h1, if_neg (by omega : ¬ t = 0)] at hx
      have hflen : (rows.filter (fun y => decide (x.mass < y.mass))).length
          = ((srt rows).filter (fun y => decide (x.mass < y.mass))).length :=
        (hperm.symm.filter _).length_eq
      rw [hflen]
      have hsplit := List.take_append_drop (rows.length - t) (srt rows)
      have hsorted2 := hsorted
      rw [← hsplit] at hsorted2
      have hR := (List.pairwise_append.mp hsorted2).2.2
      have htake : ((srt rows).take (rows.length - t)).filter
          (fun y => decide (x.mass < y.mass)) = [] := by
        rw [List.filter_eq_nil_iff]
        intro y hy
        rw [decide_eq_true_eq]
        exact not_lt_of_le (hR y hy x hx)
      have hdlen : ((srt rows).drop (rows.length - t)).length = t := by
        rw [List.length_drop, hperm.length_eq]
        omega
      have hdfilter : (((srt rows).drop (rows.length - t)).filter
          (fun y => decide (x.mass < y.mass))).length
          < ((srt rows).drop (rows.length - t)).length := by
        refine List.length_filter_lt_length_iff_exists.mpr ⟨x, hx, ?_⟩
        simp
      calc ((srt rows).filter (fun y => decide (x.mass < y.mass))).length
          = ((((srt rows).take (rows.length - t))
              ++ ((srt rows).drop (rows.length - t))).filter
                (fun y => decide (x.mass < y.mass))).length := by rw [hsplit]
        _ = (((srt rows).drop (rows.length - t)).filter
              (fun y => decide (x.mass < y.mass))).length := by
              rw [List.filter_append, htake, List.nil_append]
        _ < t := lt_of_lt_of_eq hdfilter hdlen
  · intro rows c t ht2 htn _ hconst
    simp only [selectTopn, selectTopnWith]
    rw [if_pos htn, if_neg (by omega : ¬ t = 1), if_neg (by omega : ¬ t = 0),
      sortByMass_of_const rows c hconst]

/-- C7 (counterexample to the claim as stated): three distinct features
of equal mass 5 — squarely inside numpy's stable insertion-sort regime
(3 ≤ 16 rows), where the embedding is exact; with `topn = 2` the code
keeps the LAST two and drops the FIRST, while `topn = 1` keeps the
first — so ties are not broken by input order (earlier features
preferred) in the `topn ≥ 2` path. -/
theorem topn_tiebreak_counterexample :
    rows3T.length ≤ 16 ∧
      selectTopn (some 2) rows3T = [prow 2 2 5, prow 3 3 5] ∧
      prow 1 1 5 ∉ selectTopn (some 2) rows3T ∧
      (∀ x ∈ rows3T, x.mass = 5) ∧
      selectTopn (some 1) rows3T = [prow 1 1 5] := by
  refine ⟨by with_unfolding_all decide, by with_unfolding_all rfl,
    by with_unfolding_all decide, by with_unfolding_all decide,
    by with_unfolding_all rfl⟩

/-- Closed instantiation of `topn_selection` at the three equal-mass
rows: keeping all when `topn` exceeds the count, exact count for the
concrete sorter, and the later-wins tie resolution in the insertion-sort
regime. -/
theorem topn_selection_witness :
    (0 < 2 ∧ 2 < rows3T.length ∧ rows3T.length ≤ 16 ∧
        (∀ x ∈ rows3T, x.mass = 5) ∧ rows3T.length ≤ 4 ∧
        (sortByMass rows3T).Perm rows3T) ∧
      (selectTopnWith sortByMass (some 2) rows3T).length = 2 ∧
      selectTopn (some 2) rows3T = rows3T.drop (rows3T.length - 2) ∧
      selectTopnWith sortByMass (some 4) rows3T = rows3T := by
  refine ⟨⟨by norm_num, by with_unfolding_all decide,
      by with_unfolding_all decide, by with_unfolding_all decide,
      by with_unfolding_all decide, sortByMass_perm rows3T⟩,
    topn_selection.2.1 sortByMass rows3T 2 (sortByMass_perm rows3T)
      (by norm_num) (by with_unfolding_all decide),
    topn_selection.2.2.2 rows3T 5 2 (by norm_num)
      (by with_unfolding_all decide) (by with_unfolding_all decide)
      (by with_unfolding_all decide),
    topn_selection.1 sortByMass rows3T 4 (by with_unfolding_all decide)⟩

/-- C9 (amended): on every diagnostic path — detection returned no
coordinates (black image, no local maxima, or all maxima in the
margins), the pre-filter left nothing, or the post-filter left nothing —
`locate` does not fail: it returns the accumulated warnings and an empty
table whose columns are the full schema, with the `ep` column iff
characterize is on; but NO `frame` column is appended on these
empty-result paths, even when the input carries a frame number. -/
theorem locate_diagnostics_empty_schema :
    (∀ (shift : List ℚ → List ℚ → List ℚ) (img : NDImage)
      (raw : List ℤ → ℚ) (radius separation smoothing : List ℕ)
      (percentile minmass : ℚ) (maxsize : Option ℚ) (topn : Option ℕ)
      (maxIter : ℕ) (filterBefore filterAfter characterize : Bool)
      (blackLevel : ℚ) (epFn : PResult → Option ℚ) (frameNo : Option ℤ)
      (warns : List String),
      local_maxima img radius percentile
          (locateMargin radius separation smoothing) = .ok (warns, []) →
      locateCore shift img raw radius separation smoothing percentile
          minmass maxsize topn maxIter filterBefore filterAfter characterize
          blackLevel epFn frameNo
        = .ok (warns, ⟨coordColumns img.shape.length ++ ["mass"]
            ++ (if characterize then ["size", "ecc", "signal"] else [])
            ++ (if characterize then ["ep"] else []), []⟩)) ∧
    (∀ (shift : List ℚ → List ℚ → List ℚ) (img : NDImage)
      (raw : List ℤ → ℚ) (radius separation smoothing : List ℕ)
      (percentile minmass : ℚ) (maxsize : Option ℚ) (topn : Option ℕ)
      (maxIter : ℕ) (filterAfter characterize : Bool) (blackLevel : ℚ)
      (epFn : PResult → Option ℚ) (frameNo : Option ℤ)
      (warns : List String) (coords : List (List ℕ)),
      local_maxima img radius percentile
          (locateMargin radius separation smoothing) = .ok (warns, coords) →
      coords ≠ [] →
      coords.filter (prefilterCond img radius minmass maxsize) = [] →
      locateCore shift img raw radius separation smoothing percentile
          minmass maxsize topn maxIter true filterAfter characterize
          blackLevel epFn frameNo
        = .ok (warns ++ ["No maxima survived mass- and size-based prefiltering."],
            ⟨coordColumns img.shape.length ++ ["mass"]
              ++ (if characterize then ["size", "ecc", "signal"] else [])
              ++ (if characterize then ["ep"] else []), []⟩)) ∧
    (∀ (shift : List ℚ → List ℚ → List ℚ) (img : NDImage)
      (raw : List ℤ → ℚ) (radius separation smoothing : List ℕ)
      (percentile minmass : ℚ) (maxsize : Option ℚ) (topn : Option ℕ)
      (maxIter : ℕ) (filterBefore characterize : Bool) (blackLevel : ℚ)
      (epFn : PResult → Option ℚ) (frameNo : Option ℤ)
      (warns : List String) (coords : List (List ℕ)),
      local_maxima img radius percentile
          (locateMargin radius separation smoothing) = .ok (warns, coords) →
      coords ≠ [] →
      (if filterBefore then
        coords.filter (prefilterCond img radius minmass maxsize)
       else coords) ≠ [] →
      (refine shift img raw radius
          ((if filterBefore then
              coords.filter (prefilterCond img radius minmass maxsize)
            else coords).map (List.map Int.ofNat))
          (separation.map (fun s : ℕ => (s : ℚ))) maxIter
          characterize).filter (postfilterCond minmass maxsize) = [] →
      locateCore shift img raw radius separation smoothing percentile
          minmass maxsize topn maxIter filterBefore true characterize
          blackLevel epFn frameNo
        = .ok (warns ++ ["No maxima survived mass- and size-based filtering."],
            ⟨coordColumns img.shape.length ++ ["mass"]
              ++ (if characterize then ["size", "ecc", "signal"] else [])
              ++ (if characterize then ["ep"] else []), []⟩)) ∧
    (∀ (d : ℕ) (characterize : Bool),
      "frame" ∉ coordColumns d ++ ["mass"]
        ++ (if characterize then ["size", "ecc", "signal"] else [])
        ++ (if characterize then ["ep"] else [])) := by
  refine ⟨?_, ?_, ?_, ?_⟩
  · intro shift img raw radius separation smoothing percentile minmass
      maxsize topn maxIter filterBefore filterAfter characterize blackLevel
      epFn frameNo warns h1
    simp only [locateCore, h1, List.isEmpty_nil, if_true]
  · intro shift img raw radius separation smoothing percentile minmass
      maxsize topn maxIter filterAfter characterize blackLevel epFn frameNo
      warns coords h1 h2 h3
    have hne : coords.isEmpty = false := by
      rw [List.isEmpty_eq_false]; exact h2
    simp only [locateCore, h1, hne, Bool.false_eq_true, if_false, if_true,
      h3, List.isEmpty_nil]
  · intro shift img raw radius separation smoothing percentile minmass
      maxsize topn maxIter filterBefore characterize blackLevel epFn frameNo
      warns coords h1 h2 h3 h4
    have hne : coords.isEmpty = false := by
      rw [List.isEmpty_eq_false]; exact h2
    have hne3 : (if filterBefore then
        coords.filter (prefilterCond img radius minmass maxsize)
      else coords).isEmpty = false := by
      rw [List.isEmpty_eq_false]; exact h3
    simp only [locateCore, h1, hne, hne3, Bool.false_eq_true, if_false,
      if_true, h4, List.isEmpty_nil]
  · intro d characterize hmem
    rcases List.mem_append.mp hmem with h | h
    · rcases List.mem_append.mp h with h2 | h2
      · rcases List.mem_append.mp h2 with h3 | h3
        · exact absurd (List.mem_of_mem_take h3) (by decide)
        · exact absurd h3 (by decide)
      · cases characterize with
        | true => exact absurd h2 (by decide)
        | false => exact absurd h2 (List.not_mem_nil _)
    · cases characterize with
      | true => exact absurd h (by decide)
      | false => exact absurd h (List.not_mem_nil _)

/-- Closed instantiation of `locate_diagnostics_empty_schema` at the
black 5×5 image carrying frame number 7: warning plus empty table with
the full characterize schema. -/
theorem locate_diagnostics_witness :
    (local_maxima zimg [1, 1] 64 (locateMargin [1, 1] [4, 4] [3, 3])
        = .ok (["Image is completely black."], [])) ∧
      locateCore shiftId zimg (fun _ => 0) [1, 1] [4, 4] [3, 3] 64 100 none
          none 10 false true true 0 (fun _ => none) (some 7)
        = .ok (["Image is completely black."],
            ⟨coordColumns zimg.shape.length ++ ["mass"]
              ++ (if true then ["size", "ecc", "signal"] else [])
              ++ (if true then ["ep"] else []), []⟩) := by
  have hlm : local_maxima zimg [1, 1] 64 (locateMargin [1, 1] [4, 4] [3, 3])
      = .ok (["Image is completely black."], []) := by
    with_unfolding_all rfl
  exact ⟨hlm, locate_diagnostics_empty_schema.1 shiftId zimg (fun _ => 0)
    [1, 1] [4, 4] [3, 3] 64 100 none none 10 false true true 0
    (fun _ => none) (some 7) ["Image is completely black."] hlm⟩

/-- C9 (counterexample to the claim as stated): the black image carries
frame number 7, yet the returned empty table has no `frame` column —
the frame tag is attached only to non-empty results. -/
theorem locate_no_frame_on_empty_table :
    locateCore shiftId zimg (fun _ => 0) [1, 1] [4, 4] [3, 3] 64 100 none
        none 10 true true true 0 (fun _ => none) (some 7)
      = .ok (["Image is completely black."],
          ⟨["x", "y", "mass", "size", "ecc", "signal", "ep"], []⟩) ∧
      "frame" ∉ ["x", "y", "mass", "size", "ecc", "signal", "ep"] := by
  exact ⟨by with_unfolding_all rfl, by decide⟩

end Trackpy
